import Mathlib

/-!
# The SignalFx output plugin of telegraf

A shallow embedding of `plugins/outputs/signalfx/signalfx.go`: the value
coercion `valFromField`, and the session methods `Connect`, `Write` and
`Close` of `signalFx`, followed by theorems about them.

Conventions of the embedding:

* Go machine integers are mathematical integers (`Int`); a value of a
  fixed-width type is well formed when it lies in the range of its width, and
  int64 arithmetic that can overflow wraps explicitly (`wrapInt64`).
* Go floating-point values are their IEEE-754 bit patterns (`Nat`).
* A Go map is the list of its entries in the order in which the runtime
  yields them to a `range` loop; that order is an input of the model.
* The pointer receiver `d *signalFx` is passed and returned explicitly.
* The remote sink is a collaborator: what its `AddDatapoints` answers is a
  parameter, and the calls it receives are recorded in a log.
-/

set_option linter.dupNamespace false

namespace signalfx

/-! ## Go basics -/

/-- The range of a signed two-complement integer of `w` bits. -/
def inRange (w : Nat) (v : Int) : Prop :=
  -(2 ^ (w - 1) : Int) ≤ v ∧ v < 2 ^ (w - 1)

instance (w : Nat) (v : Int) : Decidable (inRange w v) := by
  unfold inRange; infer_instance

/-- The range of an unsigned integer of `w` bits. -/
def inURange (w : Nat) (v : Int) : Prop :=
  0 ≤ v ∧ v < 2 ^ w

instance (w : Nat) (v : Int) : Decidable (inURange w v) := by
  unfold inURange; infer_instance

/-- The int64 that Go wrapping arithmetic leaves for the exact result `x`. -/
def wrapInt64 (x : Int) : Int :=
  (x + 2 ^ 63) % 2 ^ 64 - 2 ^ 63

namespace time

/-- Go `time.Duration`: a count of nanoseconds, an int64. -/
abbrev Duration := Int

/-- Go `time.Second`. -/
def Second : Duration := 1000000000

/-- Go `time.Time`, as the instant it denotes: `sec` whole seconds since the
Unix epoch (what `t.Unix()` returns) and `nsec` nanoseconds within that second
(what `t.Nanosecond()` returns, in `[0, 999999999]`). -/
structure Time where
  sec : Int
  nsec : Int
deriving DecidableEq, Repr

/-- A time value Go can hold: the nanosecond part is within one second and the
second count is an int64. -/
def Time.WellFormed (t : Time) : Prop :=
  0 ≤ t.nsec ∧ t.nsec < 1000000000 ∧ inRange 64 t.sec

instance (t : Time) : Decidable t.WellFormed := by
  unfold Time.WellFormed; infer_instance

/-- The exact number of nanoseconds from the Unix epoch to `t`. -/
def Time.nanosSinceEpoch (t : Time) : Int :=
  t.sec * 1000000000 + t.nsec

/-- Go `Time.UnixNano`: `(t.sec()+internalToUnix)*1e9 + int64(t.nsec())`,
computed in int64. -/
def Time.UnixNano (t : Time) : Int :=
  wrapInt64 (t.sec * 1000000000 + t.nsec)

/-- Go `time.Unix(sec, nsec)` for an `nsec` already within `[0, 1e9)`. -/
def Unix (sec nsec : Int) : Time := ⟨sec, nsec⟩

end time

/-- Go conversion `float64(d)` of a float32 `d`, on IEEE-754 bit patterns.
The conversion is exact: zeros, infinities and normal numbers are re-biased,
subnormal float32 numbers become normal float64 numbers, and a NaN keeps its
payload with the quiet bit set. -/
def float32ToFloat64 (b : Nat) : Nat :=
  let sign := b / 2 ^ 31 % 2
  let e := b / 2 ^ 23 % 2 ^ 8
  let f := b % 2 ^ 23
  let s64 := sign * 2 ^ 63
  if e = 0 then
    if f = 0 then s64
    else
      let k := Nat.log2 f
      s64 + (k + 874) * 2 ^ 52 + (f - 2 ^ k) * 2 ^ (52 - k)
  else if e = 255 then
    if f = 0 then s64 + 2047 * 2 ^ 52
    else s64 + 2047 * 2 ^ 52 + (if f < 2 ^ 22 then f * 2 ^ 29 + 2 ^ 51 else f * 2 ^ 29)
  else
    s64 + (e + 896) * 2 ^ 52 + f * 2 ^ 29

/-- The values of Go `error` that occur: the two package-level errors of the
plugin and whatever error the sink returns. -/
inductive GoError
  | errNoTokenSet
  | errUndetermineableType
  | sink (msg : String)
deriving DecidableEq, Repr

/-- The dynamic value of an `interface{}` that holds a field of a measurement:
one constructor per dynamic type. -/
inductive FieldValue
  | int (d : Int)
  | int8 (d : Int)
  | int16 (d : Int)
  | int32 (d : Int)
  | int64 (d : Int)
  | uint (d : Int)
  | uint8 (d : Int)
  | uint16 (d : Int)
  | uint32 (d : Int)
  | uint64 (d : Int)
  | float32 (bits : Nat)
  | float64 (bits : Nat)
  | bool (d : Bool)
  | time (d : time.Time)
  | string (d : String)
  | func
  | composite (typeName : String)
  | nil
deriving DecidableEq, Repr

/-- The kinds of field value the specification distinguishes. -/
inductive Kind
  | signedInteger
  | unsignedInteger
  | floatingPoint
  | boolean
  | timestamp
  | string
  | function
  | composite
  | null
deriving DecidableEq, Repr

/-- The kind of a field value. -/
def FieldValue.kind : FieldValue → Kind
  | .int _ | .int8 _ | .int16 _ | .int32 _ | .int64 _ => .signedInteger
  | .uint _ | .uint8 _ | .uint16 _ | .uint32 _ | .uint64 _ => .unsignedInteger
  | .float32 _ | .float64 _ => .floatingPoint
  | .bool _ => .boolean
  | .time _ => .timestamp
  | .string _ => .string
  | .func => .function
  | .composite _ => .composite
  | .nil => .null

/-- A field value Go can hold: the number lies in the range of its type (the
platform `int` taken at its widest, 64 bits). -/
def FieldValue.WellFormed : FieldValue → Prop
  | .int d => inRange 64 d
  | .int8 d => inRange 8 d
  | .int16 d => inRange 16 d
  | .int32 d => inRange 32 d
  | .int64 d => inRange 64 d
  | .uint d => inURange 64 d
  | .uint8 d => inURange 8 d
  | .uint16 d => inURange 16 d
  | .uint32 d => inURange 32 d
  | .uint64 d => inURange 64 d
  | .float32 bits => bits < 2 ^ 32
  | .float64 bits => bits < 2 ^ 64
  | .bool _ => True
  | .time d => d.WellFormed
  | .string _ => True
  | .func => True
  | .composite _ => True
  | .nil => True

instance (v : FieldValue) : Decidable v.WellFormed := by
  cases v <;> unfold FieldValue.WellFormed <;> infer_instance

/-! ## The datapoint library, at its boundary -/

namespace datapoint

/-- The library `datapoint.Value`: an int64, a float64 (its bit pattern) or a
string. -/
inductive Value
  | int (v : Int)
  | float (bits : Nat)
  | str (s : String)
deriving DecidableEq, Repr

/-- The library `datapoint.NewIntValue`, of an int64. -/
def NewIntValue (v : Int) : Value := .int v

/-- The library `datapoint.NewFloatValue`, of a float64. -/
def NewFloatValue (bits : Nat) : Value := .float bits

/-- The library `datapoint.MetricType`. -/
inductive MetricType
  | Gauge
  | Count
  | Enum
  | Counter
  | Rate
  | Timestamp
deriving DecidableEq, Repr

/-- The library `datapoint.Datapoint`. -/
structure Datapoint where
  Metric : String
  Dimensions : List (String × String)
  Value : datapoint.Value
  MetricType : datapoint.MetricType
  Timestamp : time.Time
deriving DecidableEq, Repr

/-- The library `datapoint.New`. -/
def New (metric : String) (dimensions : List (String × String)) (value : Value)
    (metricType : MetricType) (timestamp : time.Time) : Datapoint :=
  ⟨metric, dimensions, value, metricType, timestamp⟩

end datapoint

namespace telegraf

/-- Modelled from the spec: `telegraf.Metric`, declared outside the plugin. A
measurement is "a named event with a tag set (mapping from string key to string
value) and a field set (mapping from string key to an arbitrary scalar value),
plus one timestamp", "immutable once formed". Each field of the structure is
what the method of that name returns; `Fields` lists the entries of the map in
the order a `range` over it yields them. -/
structure Metric where
  Name : String
  Tags : List (String × String)
  Fields : List (String × FieldValue)
  Time : time.Time
deriving DecidableEq, Repr

end telegraf

namespace sfxclient

/-- The library `sfxclient.HTTPDatapointSink`, with the fields `Connect`
sets (`ClientTimeout` is `Client.Timeout`). -/
structure HTTPDatapointSink where
  AuthToken : String
  UserAgent : String
  Endpoint : String
  ClientTimeout : time.Duration
deriving DecidableEq, Repr

/-- A value of the interface `sfxclient.Sink`: the HTTP sink `Connect`
installs, or another implementation (a test sink), told apart by `id`. -/
inductive Sink
  | http (s : HTTPDatapointSink)
  | other (id : Nat)
deriving DecidableEq, Repr

/-- One call of `AddDatapoints`: the sink called, the timeout of the context
(`context.WithTimeout(context.Background(), timeout)`) and the points. -/
structure SinkCall where
  sink : Sink
  timeout : time.Duration
  points : List datapoint.Datapoint
deriving DecidableEq, Repr

/-- What the collaborator answers to `AddDatapoints(ctx, points)`: given the
sink, the calls made before, the timeout of the context and the points, either
no error or an error. -/
abbrev Behaviour :=
  Sink → List SinkCall → time.Duration → List datapoint.Datapoint → Option GoError

end sfxclient

namespace internal

/-- The type `internal.Duration` of telegraf: a wrapper of `time.Duration`. -/
structure Duration where
  Duration : time.Duration
deriving DecidableEq, Repr

end internal

/-! ## The plugin -/

/-- The session: `type signalFx struct`. A nil `client` is `none`. -/
structure signalFx where
  Token : String
  Timeout : internal.Duration
  Endpoint : String
  Debug : Bool
  client : Option sfxclient.Sink
deriving DecidableEq, Repr

/-- The function `valFromField`: a type switch on the dynamic type of `v`. -/
def valFromField (v : FieldValue) : Except GoError datapoint.Value :=
  match v with
  | .int d => .ok (datapoint.NewIntValue d)
  | .int32 d => .ok (datapoint.NewIntValue d)
  | .int64 d => .ok (datapoint.NewIntValue d)
  | .float32 d => .ok (datapoint.NewFloatValue (float32ToFloat64 d))
  | .float64 d => .ok (datapoint.NewFloatValue d)
  | .bool d =>
    if d then .ok (datapoint.NewIntValue 1)
    else .ok (datapoint.NewIntValue 0)
  | .time d => .ok (datapoint.NewIntValue d.UnixNano)
  | _ => .error .errUndetermineableType

/-- The body of the inner loop of `Write`, for the entry `(k, v)` of the
fields of `m`: the new value of `points`. -/
def Write.fieldStep (m : telegraf.Metric) (points : List datapoint.Datapoint)
    (kv : String × FieldValue) : List datapoint.Datapoint :=
  match valFromField kv.2 with
  | .error _ => points
  | .ok val =>
    let metricName := m.Name
    let metricName := if kv.1 ≠ "value" then metricName ++ ("." ++ kv.1) else metricName
    points ++ [datapoint.New metricName m.Tags val datapoint.MetricType.Gauge m.Time]

/-- The body of the outer loop of `Write`, for the measurement `m`: the inner
loop over `m.Fields()`. -/
def Write.metricStep (points : List datapoint.Datapoint) (m : telegraf.Metric) :
    List datapoint.Datapoint :=
  m.Fields.foldl (Write.fieldStep m) points

/-- The two loops of `Write`, from `var points []*datapoint.Datapoint`. -/
def Write.points (metrics : List telegraf.Metric) : List datapoint.Datapoint :=
  metrics.foldl Write.metricStep []

/-- How a call of `Write` ends: it returns its `error` result, or it panics on
the method call through a nil interface. -/
inductive Outcome
  | returned (err : Option GoError)
  | panicked
deriving DecidableEq, Repr

/-- What a call of `Write` leaves: the session, the log of the calls the sink
has received, and the outcome. -/
structure WriteResult where
  session : signalFx
  calls : List sfxclient.SinkCall
  outcome : Outcome
deriving DecidableEq, Repr

/-- The method `Write`. `AddDatapoints` is the answer of the collaborator and
`log` the calls the sink has received before. -/
def signalFx.Write (AddDatapoints : sfxclient.Behaviour) (d : signalFx)
    (metrics : List telegraf.Metric) (log : List sfxclient.SinkCall) : WriteResult :=
  if metrics.length = 0 then
    { session := d, calls := log, outcome := .returned none }
  else
    let points := Write.points metrics
    let timeout := d.Timeout.Duration
    match d.client with
    | none => { session := d, calls := log, outcome := .panicked }
    | some sink =>
      { session := d
        calls := log ++ [⟨sink, timeout, points⟩]
        outcome := .returned (AddDatapoints sink log timeout points) }

/-- What a call of `Connect` leaves: the session, the lines logged and the
`error` result. -/
structure ConnectResult where
  session : signalFx
  logged : List String
  err : Option GoError
deriving DecidableEq, Repr

/-- The method `Connect`. `NewHTTPDatapointSink` is the sink the library
constructor of that name returns and `runtimeVersion` is `runtime.Version()`. -/
def signalFx.Connect (NewHTTPDatapointSink : sfxclient.HTTPDatapointSink)
    (runtimeVersion : String) (d : signalFx) : ConnectResult :=
  if d.Token = "" then
    { session := d, logged := [], err := some .errNoTokenSet }
  else
    let d := if d.Timeout.Duration = 0 then { d with Timeout := ⟨time.Second * 3⟩ } else d
    let httpClient := NewHTTPDatapointSink
    let httpClient := { httpClient with ClientTimeout := d.Timeout.Duration }
    let httpClient := { httpClient with AuthToken := d.Token }
    let httpClient :=
      if d.Endpoint ≠ "" then { httpClient with Endpoint := d.Endpoint } else httpClient
    let telegrafVersion := "unknown(v1)"
    let httpClient :=
      { httpClient with
        UserAgent := "telegraf/" ++ telegrafVersion ++ " (gover " ++ runtimeVersion ++ ")" }
    let d := { d with client := some (.http httpClient) }
    let logged :=
      if d.Debug then ["[signalfx] Write enabled to " ++ httpClient.Endpoint] else []
    { session := d, logged := logged, err := none }

/-- The method `Close`: the session and the `error` result. -/
def signalFx.Close (d : signalFx) : signalFx × Option GoError :=
  (d, none)

/-! ## Vocabulary of the theorems -/

/-- The point `Write` builds for the entry `(k, v)` of `m`, if `v` coerces. -/
def pointOfField (m : telegraf.Metric) (kv : String × FieldValue) :
    Option datapoint.Datapoint :=
  match valFromField kv.2 with
  | .error _ => none
  | .ok val =>
    some ⟨if kv.1 = "value" then m.Name else m.Name ++ "." ++ kv.1,
      m.Tags, val, .Gauge, m.Time⟩

/-- The points derived from one measurement: the inner loop of `Write` run on
an empty list. -/
def pointsOfMetric (m : telegraf.Metric) : List datapoint.Datapoint :=
  Write.metricStep [] m

/-- The number of fields of the batch for which `valFromField` succeeds. -/
def coercibleFields (metrics : List telegraf.Metric) : Nat :=
  (metrics.map fun m => (m.Fields.filter fun kv => (valFromField kv.2).toBool).length).sum

/-- All the points the sink has been handed, over the calls of a log. -/
def pointsHanded (calls : List sfxclient.SinkCall) : List datapoint.Datapoint :=
  calls.flatMap fun c => c.points

/-- The number of points `Write` builds for the first `i` measurements of a
batch: where the points of the measurement of index `i` start. -/
def pointsBefore (metrics : List telegraf.Metric) (i : Nat) : Nat :=
  (Write.points (metrics.take i)).length

/-! ## The scenario of `TestSignalFxClient` -/

/-- The instant `time.Date(2009, time.November, 10, 23, 0, 0, 0, time.UTC)`. -/
def testTime : time.Time := ⟨1257894000, 0⟩

/-- The measurement `testutil.TestMetric(1)`. -/
def testMetric1 : telegraf.Metric :=
  ⟨"test1", [("tag1", "value1")], [("value", .int 1)], testTime⟩

/-- The measurement `m2` of the test. -/
def testMetric2 : telegraf.Metric :=
  ⟨"test2", [], [("cpuusage", .int 10)], testTime⟩

/-- The measurement `m3` of the test, whose only field is a function. -/
def testMetric3 : telegraf.Metric :=
  ⟨"test3", [], [("inconceivable", .func)], testTime⟩

/-- The batch the test writes. -/
def testBatch : List telegraf.Metric := [testMetric1, testMetric2, testMetric3]

/-- The test sink, `dptest.NewBasicSink()`. -/
def testSink : sfxclient.Sink := .other 0

/-- The session of the test when it writes: connected with token "abc", its
client replaced by the test sink. -/
def testSession : signalFx :=
  ⟨"abc", ⟨3000000000⟩, "testing", true, some testSink⟩

/-- A sink that accepts every call. -/
def acceptAll : sfxclient.Behaviour := fun _ _ _ _ => none

/-- A sink that refuses every call. -/
def refuseAll : sfxclient.Behaviour := fun _ _ _ _ => some (.sink "refused")

/-- A measurement named "a.b" with the field "value" and a measurement named
"a" with the field "b". -/
def collidingBatch : List telegraf.Metric :=
  [⟨"a.b", [], [("value", .int 1)], testTime⟩, ⟨"a", [], [("b", .int 2)], testTime⟩]

/-- A measurement with one field of each kind `valFromField` accepts: an
int64, a float64 (1.5), a boolean and a timestamp. -/
def mixedMetric : telegraf.Metric :=
  ⟨"mixed", [("host", "a")],
    [("i", .int64 3), ("f", .float64 4609434218613702656), ("b", .bool true),
      ("t", .time testTime)],
    testTime⟩

/-! ## What a floating-point bit pattern denotes -/

/-- The denotation of an IEEE-754 bit pattern: a finite number, given by its
sign and its magnitude counted in units of `2 ^ (-1074)` (every finite float32
and float64 is a whole number of these units), an infinity, or a NaN. -/
inductive FloatDenotation
  | finite (negative : Bool) (units : Nat)
  | infinite (negative : Bool)
  | nan
deriving DecidableEq, Repr

/-- The denotation of a binary64 bit pattern: one sign bit, 11 exponent bits
of bias 1023, 52 fraction bits. -/
def float64Denote (b : Nat) : FloatDenotation :=
  let negative := decide (b / 2 ^ 63 % 2 = 1)
  let e := b / 2 ^ 52 % 2 ^ 11
  let f := b % 2 ^ 52
  if e = 2047 then
    if f = 0 then .infinite negative else .nan
  else if e = 0 then .finite negative f
  else .finite negative ((2 ^ 52 + f) * 2 ^ (e - 1))

/-- The denotation of a binary32 bit pattern: one sign bit, 8 exponent bits of
bias 127, 23 fraction bits. The unit of binary32, `2 ^ (-149)`, is `2 ^ 925`
units of `2 ^ (-1074)`. -/
def float32Denote (b : Nat) : FloatDenotation :=
  let negative := decide (b / 2 ^ 31 % 2 = 1)
  let e := b / 2 ^ 23 % 2 ^ 8
  let f := b % 2 ^ 23
  if e = 255 then
    if f = 0 then .infinite negative else .nan
  else if e = 0 then .finite negative (f * 2 ^ 925)
  else .finite negative ((2 ^ 23 + f) * 2 ^ (e - 1) * 2 ^ 925)

/-! ## The life of a session -/

/-- The session the factory registered by `init` returns: `&signalFx{}`. -/
def newSignalFx : signalFx := ⟨"", ⟨0⟩, "", false, none⟩

/-- A call the host makes on a session after `Connect`. -/
inductive Call
  | Write (metrics : List telegraf.Metric)
  | Close

/-- The session together with the log of the calls the sink has received. -/
structure World where
  session : signalFx
  calls : List sfxclient.SinkCall
deriving DecidableEq, Repr

/-- One call on the session. -/
def step (A : sfxclient.Behaviour) (w : World) : Call → World
  | .Write metrics =>
    let r := w.session.Write A metrics w.calls
    ⟨r.session, r.calls⟩
  | .Close => ⟨w.session.Close.1, w.calls⟩

/-- A sequence of calls on the session, in order. -/
def run (A : sfxclient.Behaviour) (w : World) (cs : List Call) : World :=
  cs.foldl (step A) w

/-- The state of a session that has connected: a token, a timeout and a
client. -/
def signalFx.Connected (d : signalFx) : Prop :=
  d.Token ≠ "" ∧ d.Timeout.Duration ≠ 0 ∧ ∃ sink, d.client = some sink

/-- The sink of the library with its defaults, as
`sfxclient.NewHTTPDatapointSink()` returns it. -/
def defaultHTTPSink : sfxclient.HTTPDatapointSink :=
  ⟨"", "golib-sfxclient", "https://ingest.signalfx.com/v2/datapoint", 5000000000⟩

/-- The session of `TestSignalFxClient` after it has set Token, Endpoint and
Debug, before it connects. -/
def testConfigured : signalFx := ⟨"abc", ⟨0⟩, "testing", true, none⟩

end signalfx

namespace signalfx

/-! ## The loops of `Write`, in closed form -/

theorem Write.fieldStep_eq (m : telegraf.Metric) (points : List datapoint.Datapoint)
    (kv : String × FieldValue) :
    Write.fieldStep m points kv = points ++ (pointOfField m kv).toList := by
  unfold Write.fieldStep pointOfField
  cases hv : valFromField kv.2 with
  | error e => simp
  | ok val =>
    by_cases hk : kv.1 = "value"
    · simp [hk, datapoint.New]
    · simp [hk, datapoint.New, String.append_assoc]

theorem Write.foldl_fieldStep (m : telegraf.Metric) (fields : List (String × FieldValue))
    (points : List datapoint.Datapoint) :
    fields.foldl (Write.fieldStep m) points = points ++ fields.filterMap (pointOfField m) := by
  induction fields generalizing points with
  | nil => simp
  | cons kv rest ih =>
    rw [List.foldl_cons, ih, Write.fieldStep_eq, List.filterMap_cons]
    cases pointOfField m kv <;> simp

theorem Write.metricStep_eq (points : List datapoint.Datapoint) (m : telegraf.Metric) :
    Write.metricStep points m = points ++ m.Fields.filterMap (pointOfField m) :=
  Write.foldl_fieldStep m m.Fields points

theorem pointsOfMetric_eq (m : telegraf.Metric) :
    pointsOfMetric m = m.Fields.filterMap (pointOfField m) := by
  simp [pointsOfMetric, Write.metricStep_eq]

theorem Write.foldl_metricStep (metrics : List telegraf.Metric)
    (points : List datapoint.Datapoint) :
    metrics.foldl Write.metricStep points = points ++ metrics.flatMap pointsOfMetric := by
  induction metrics generalizing points with
  | nil => simp
  | cons m rest ih =>
    rw [List.foldl_cons, ih, Write.metricStep_eq, List.flatMap_cons, pointsOfMetric_eq,
      List.append_assoc]

theorem Write.points_eq (metrics : List telegraf.Metric) :
    Write.points metrics = metrics.flatMap pointsOfMetric := by
  simp [Write.points, Write.foldl_metricStep]

/-- With a client set and a batch that is not empty, `Write` makes one call,
with the points of the two loops, and returns what the sink answers. -/
theorem signalFx.Write_connected (A : sfxclient.Behaviour) (d : signalFx)
    (sink : sfxclient.Sink) (metrics : List telegraf.Metric) (log : List sfxclient.SinkCall)
    (hc : d.client = some sink) (hne : metrics ≠ []) :
    d.Write A metrics log =
      { session := d
        calls := log ++ [⟨sink, d.Timeout.Duration, Write.points metrics⟩]
        outcome := .returned (A sink log d.Timeout.Duration (Write.points metrics)) } := by
  have hlen : metrics.length ≠ 0 := by
    intro h
    exact hne (List.length_eq_zero.mp h)
  simp [signalFx.Write, hlen, hc]

theorem signalFx.Write_nil (A : sfxclient.Behaviour) (d : signalFx)
    (log : List sfxclient.SinkCall) :
    d.Write A [] log = { session := d, calls := log, outcome := .returned none } := by
  simp [signalFx.Write]

/-- The points a call of `Write` hands to the sink, whatever came before. -/
theorem signalFx.Write_handed (A : sfxclient.Behaviour) (d : signalFx)
    (sink : sfxclient.Sink) (metrics : List telegraf.Metric) (log : List sfxclient.SinkCall)
    (hc : d.client = some sink) :
    pointsHanded ((d.Write A metrics log).calls.drop log.length) =
      metrics.flatMap pointsOfMetric := by
  cases metrics with
  | nil => simp [signalFx.Write_nil, pointsHanded]
  | cons m rest =>
    rw [signalFx.Write_connected A d sink (m :: rest) log hc (by simp)]
    simp [pointsHanded, Write.points_eq]

theorem pointOfField_isSome (m : telegraf.Metric) (kv : String × FieldValue) :
    (pointOfField m kv).isSome = (valFromField kv.2).toBool := by
  unfold pointOfField
  cases valFromField kv.2 <;> rfl

theorem length_filterMap_pointOfField (m : telegraf.Metric)
    (fields : List (String × FieldValue)) :
    (fields.filterMap (pointOfField m)).length =
      (fields.filter fun kv => (valFromField kv.2).toBool).length := by
  induction fields with
  | nil => rfl
  | cons kv rest ih =>
    have hs := pointOfField_isSome m kv
    rw [List.filterMap_cons, List.filter_cons]
    cases hp : pointOfField m kv with
    | none =>
      rw [hp] at hs
      simp [← hs, ih]
    | some p =>
      rw [hp] at hs
      simp [← hs, ih]

theorem length_pointsOfMetric (m : telegraf.Metric) :
    (pointsOfMetric m).length =
      (m.Fields.filter fun kv => (valFromField kv.2).toBool).length := by
  rw [pointsOfMetric_eq, length_filterMap_pointOfField]

theorem length_flatMap_pointsOfMetric (metrics : List telegraf.Metric) :
    (metrics.flatMap pointsOfMetric).length = coercibleFields metrics := by
  induction metrics with
  | nil => rfl
  | cons m rest ih =>
    rw [List.flatMap_cons, List.length_append, ih, length_pointsOfMetric]
    simp [coercibleFields]

/-! ## The claims -/

/-- C1: for every batch passed to `Write` on a session with a client, the
number of points handed to the sink equals the number of field entries of the
batch for which `valFromField` succeeds; measurement by measurement, the
points derived from a measurement are as many as its fields that coerce, so a
field that fails yields no point and stops nothing. -/
theorem Write_point_count (A : sfxclient.Behaviour) (d : signalFx) (sink : sfxclient.Sink)
    (metrics : List telegraf.Metric) (log : List sfxclient.SinkCall)
    (hc : d.client = some sink) :
    (pointsHanded ((d.Write A metrics log).calls.drop log.length)).length =
        coercibleFields metrics ∧
      (metrics.flatMap pointsOfMetric =
        pointsHanded ((d.Write A metrics log).calls.drop log.length)) ∧
      ∀ m ∈ metrics, (pointsOfMetric m).length =
        (m.Fields.filter fun kv => (valFromField kv.2).toBool).length := by
  refine ⟨?_, ?_, fun m _ => length_pointsOfMetric m⟩
  · rw [signalFx.Write_handed A d sink metrics log hc, length_flatMap_pointsOfMetric]
  · rw [signalFx.Write_handed A d sink metrics log hc]

/-- Witness of C1 on the batch of `TestSignalFxClient`: three measurements, one
of them with a function for only field, give two points. -/
theorem Write_point_count_witness :
    testSession.client = some testSink ∧
      (pointsHanded ((testSession.Write acceptAll testBatch []).calls.drop 0)).length = 2 ∧
      coercibleFields testBatch = 2 ∧
      (testSession.Write acceptAll testBatch []).outcome = .returned none :=
  ⟨rfl,
    ((Write_point_count acceptAll testSession testSink testBatch [] rfl).1).trans (by decide),
    by decide, by decide⟩

/-- C2: for every measurement of the batch and every field `(k, v)` of it whose
value coerces, the sink is handed a point for it, named after the measurement
alone when `k` is "value" and after the measurement, a dot and `k` otherwise;
and every point handed to the sink has the name that rule gives for some field
of some measurement of the batch. -/
theorem Write_point_name (A : sfxclient.Behaviour) (d : signalFx) (sink : sfxclient.Sink)
    (metrics : List telegraf.Metric) (log : List sfxclient.SinkCall)
    (hc : d.client = some sink) :
    (∀ m ∈ metrics, ∀ k v val, (k, v) ∈ m.Fields → valFromField v = .ok val →
        datapoint.New (if k = "value" then m.Name else m.Name ++ "." ++ k)
            m.Tags val .Gauge m.Time ∈
          pointsHanded ((d.Write A metrics log).calls.drop log.length)) ∧
      (∀ p ∈ pointsHanded ((d.Write A metrics log).calls.drop log.length),
        ∃ m ∈ metrics, ∃ k v, (k, v) ∈ m.Fields ∧ (valFromField v).toBool = true ∧
          p.Metric = if k = "value" then m.Name else m.Name ++ "." ++ k) := by
  rw [signalFx.Write_handed A d sink metrics log hc]
  constructor
  · intro m hm k v val hkv hval
    rw [List.mem_flatMap]
    refine ⟨m, hm, ?_⟩
    rw [pointsOfMetric_eq, List.mem_filterMap]
    refine ⟨(k, v), hkv, ?_⟩
    simp [pointOfField, hval, datapoint.New]
  · intro p hp
    rw [List.mem_flatMap] at hp
    obtain ⟨m, hm, hpm⟩ := hp
    rw [pointsOfMetric_eq, List.mem_filterMap] at hpm
    obtain ⟨⟨k, v⟩, hkv, hpf⟩ := hpm
    refine ⟨m, hm, k, v, hkv, ?_⟩
    unfold pointOfField at hpf
    cases hval : valFromField v with
    | error e => simp [hval] at hpf
    | ok val =>
      simp only [hval, Option.some.injEq] at hpf
      subst hpf
      exact ⟨rfl, rfl⟩

/-- Witness of C2 on the batch of `TestSignalFxClient`: field "value" of "test1"
gives the point "test1", field "cpuusage" of "test2" the point
"test2.cpuusage". -/
theorem Write_point_name_witness :
    testSession.client = some testSink ∧
      (datapoint.New "test1" [("tag1", "value1")] (.int 1) .Gauge testTime ∈
        pointsHanded ((testSession.Write acceptAll testBatch []).calls.drop 0)) ∧
      (datapoint.New "test2.cpuusage" [] (.int 10) .Gauge testTime ∈
        pointsHanded ((testSession.Write acceptAll testBatch []).calls.drop 0)) :=
  ⟨rfl,
    (Write_point_name acceptAll testSession testSink testBatch [] rfl).1 testMetric1
      (by decide) "value" (.int 1) (.int 1) (by decide) rfl,
    (Write_point_name acceptAll testSession testSink testBatch [] rfl).1 testMetric2
      (by decide) "cpuusage" (.int 10) (.int 10) (by decide) rfl⟩

/-- C3, as stated, fails: an int8 and an int16 are signed integers Go can hold,
and `valFromField` fails on them with `errUndetermineableType`. -/
theorem valFromField_int8_int16_fail :
    (FieldValue.int8 5).kind = .signedInteger ∧ (FieldValue.int8 5).WellFormed ∧
      valFromField (.int8 5) = .error .errUndetermineableType ∧
      (FieldValue.int16 (-300)).kind = .signedInteger ∧ (FieldValue.int16 (-300)).WellFormed ∧
      valFromField (.int16 (-300)) = .error .errUndetermineableType :=
  ⟨rfl, by decide, rfl, rfl, by decide, rfl⟩

/-- C3, amended: for every signed integer input of type int, int32 or int64,
`valFromField` succeeds and returns the integer value numerically equal to the
input (negative values included), which lies in the range of a 64-bit signed
integer. -/
theorem valFromField_signed (v : FieldValue) (d : Int)
    (hv : v = .int d ∨ v = .int32 d ∨ v = .int64 d) (hw : v.WellFormed) :
    valFromField v = .ok (.int d) ∧ inRange 64 d := by
  rcases hv with h | h | h <;> subst h
  · exact ⟨rfl, hw⟩
  · refine ⟨rfl, ?_⟩
    simp only [FieldValue.WellFormed, inRange] at hw ⊢
    omega
  · exact ⟨rfl, hw⟩

/-- Witness of C3, amended: the int32 of value -7. -/
theorem valFromField_signed_witness :
    (FieldValue.int32 (-7)).WellFormed ∧
      valFromField (.int32 (-7)) = .ok (.int (-7)) ∧ inRange 64 (-7) :=
  ⟨by decide, valFromField_signed (.int32 (-7)) (-7) (Or.inr (Or.inl rfl)) (by decide)⟩

/-- C4: for every input whose kind is not signed integer, floating point,
boolean or timestamp, `valFromField` fails with `errUndetermineableType`, and
so returns no value. -/
theorem valFromField_other_kind (v : FieldValue)
    (hk : v.kind ≠ .signedInteger ∧ v.kind ≠ .floatingPoint ∧ v.kind ≠ .boolean ∧
      v.kind ≠ .timestamp) :
    valFromField v = .error .errUndetermineableType ∧
      ∀ val, valFromField v ≠ .ok val := by
  obtain ⟨h1, h2, h3, h4⟩ := hk
  cases v <;> simp [FieldValue.kind] at h1 h2 h3 h4 <;> simp [valFromField]

/-- Witness of C4: the string of `TestSignalFxValConvert`. -/
theorem valFromField_other_kind_witness :
    valFromField (.string "inconceivable") = .error .errUndetermineableType ∧
      ∀ val, valFromField (.string "inconceivable") ≠ .ok val :=
  valFromField_other_kind (.string "inconceivable") (by decide)

/-- C5: `valFromField` maps true to the integer value 1 and false to the
integer value 0, which is what it returns for the integer 1 and the integer 0
of each integer type it supports (int, int32, int64). -/
theorem valFromField_bool :
    valFromField (.bool true) = .ok (.int 1) ∧ valFromField (.bool false) = .ok (.int 0) ∧
      valFromField (.bool true) = valFromField (.int 1) ∧
      valFromField (.bool true) = valFromField (.int32 1) ∧
      valFromField (.bool true) = valFromField (.int64 1) ∧
      valFromField (.bool false) = valFromField (.int 0) ∧
      valFromField (.bool false) = valFromField (.int32 0) ∧
      valFromField (.bool false) = valFromField (.int64 0) :=
  ⟨rfl, rfl, rfl, rfl, rfl, rfl, rfl, rfl⟩

theorem wrapInt64_of_inRange (x : Int) (h : inRange 64 x) : wrapInt64 x = x := by
  simp only [inRange] at h
  unfold wrapInt64
  omega

/-- C6, as stated, fails: the first instant of the year 2300 is a time Go can
hold, it lies 10413792000000000000 nanoseconds after the Unix epoch, and
`valFromField` returns -8032952073709551616 for it. -/
theorem valFromField_time_year_2300 :
    (FieldValue.time ⟨10413792000, 0⟩).WellFormed ∧
      time.Time.nanosSinceEpoch ⟨10413792000, 0⟩ = 10413792000000000000 ∧
      valFromField (.time ⟨10413792000, 0⟩) = .ok (.int (-8032952073709551616)) ∧
      valFromField (.time ⟨10413792000, 0⟩) ≠
        .ok (.int (time.Time.nanosSinceEpoch ⟨10413792000, 0⟩)) := by
  have h2 : valFromField (.time ⟨10413792000, 0⟩) = .ok (.int (-8032952073709551616)) := by
    simp only [valFromField, datapoint.NewIntValue, time.Time.UnixNano]
    have hw : wrapInt64 (10413792000 * 1000000000 + 0) = -8032952073709551616 := by decide
    rw [hw]
  refine ⟨by decide, by decide, h2, ?_⟩
  rw [h2]
  intro h
  injection h with h
  injection h with h
  revert h
  decide

/-- C6, amended: for every timestamp whose number of nanoseconds from the Unix
epoch fits a 64-bit signed integer, `valFromField` succeeds and returns the
integer value equal to exactly that number; the Unix epoch itself maps to 0. -/
theorem valFromField_time (t : time.Time) (h : inRange 64 t.nanosSinceEpoch) :
    valFromField (.time t) = .ok (.int t.nanosSinceEpoch) ∧
      valFromField (.time (time.Unix 0 0)) = .ok (.int 0) := by
  constructor
  · have hw : t.UnixNano = t.nanosSinceEpoch := wrapInt64_of_inRange _ h
    simp only [valFromField, datapoint.NewIntValue, hw]
  · rfl

/-- Witness of C6, amended: the instant of `TestSignalFxClient`, 23:00 UTC on
10 November 2009. -/
theorem valFromField_time_witness :
    inRange 64 testTime.nanosSinceEpoch ∧
      valFromField (.time testTime) = .ok (.int 1257894000000000000) ∧
      valFromField (.time (time.Unix 0 0)) = .ok (.int 0) :=
  ⟨by decide, valFromField_time testTime (by decide)⟩

/-- C7: `Write` on an empty sequence of measurements returns success and makes
no call to the sink, whatever the session, a session with no client included. -/
theorem Write_empty (A : sfxclient.Behaviour) (d : signalFx) (log : List sfxclient.SinkCall) :
    (d.Write A [] log).outcome = .returned none ∧ (d.Write A [] log).calls = log ∧
      (d.Write A [] log).calls.drop log.length = [] := by
  simp [signalFx.Write]

/-- C8: for every batch that is not empty, `Write` on a session with a client
makes its call to the sink and returns exactly what that call returns: it
fails if and only if the sink fails, with the error of the sink, and it
succeeds when the sink does, whatever fields fail to coerce. -/
theorem Write_result (A : sfxclient.Behaviour) (d : signalFx) (sink : sfxclient.Sink)
    (metrics : List telegraf.Metric) (log : List sfxclient.SinkCall)
    (hne : metrics ≠ []) (hc : d.client = some sink) :
    ∃ points,
      (d.Write A metrics log).calls = log ++ [⟨sink, d.Timeout.Duration, points⟩] ∧
      (d.Write A metrics log).outcome =
        .returned (A sink log d.Timeout.Duration points) ∧
      (∀ e, (d.Write A metrics log).outcome = .returned (some e) ↔
        A sink log d.Timeout.Duration points = some e) ∧
      ((d.Write A metrics log).outcome = .returned none ↔
        A sink log d.Timeout.Duration points = none) := by
  refine ⟨Write.points metrics, ?_⟩
  rw [signalFx.Write_connected A d sink metrics log hc hne]
  simp

/-- Witness of C8: the batch of `TestSignalFxClient`, one field of which does
not coerce, written to a sink that refuses: the error is the one of the sink. -/
theorem Write_result_witness :
    testBatch ≠ [] ∧ testSession.client = some testSink ∧
      (testSession.Write refuseAll testBatch []).outcome =
        .returned (some (.sink "refused")) := by
  refine ⟨by decide, rfl, ?_⟩
  obtain ⟨points, _, hout, _, _⟩ :=
    Write_result refuseAll testSession testSink testBatch [] (by decide) rfl
  rw [hout]
  rfl

/-! ### Where the points of a measurement lie in the list -/

theorem length_flatMap_take_succ {α β : Type} (f : α → List β) (l : List α) (i : Nat) (a : α)
    (h : l[i]? = some a) :
    ((l.take (i + 1)).flatMap f).length = ((l.take i).flatMap f).length + (f a).length := by
  rw [List.take_succ, h]
  simp

theorem length_flatMap_take_mono {α β : Type} (f : α → List β) (l : List α) (i j : Nat)
    (hij : i ≤ j) :
    ((l.take i).flatMap f).length ≤ ((l.take j).flatMap f).length := by
  have ht : l.take i = (l.take j).take i := by
    rw [List.take_take, Nat.min_eq_left hij]
  have hs : l.take j = (l.take j).take i ++ (l.take j).drop i :=
    (List.take_append_drop i (l.take j)).symm
  rw [ht]
  conv => rhs; rw [hs]
  rw [List.flatMap_append, List.length_append]
  exact Nat.le_add_right _ _

theorem getElem?_flatMap_take {α β : Type} (f : α → List β) (l : List α) (i p : Nat)
    (a : α) (x : β) (h : l[i]? = some a) (hx : (f a)[p]? = some x) :
    (l.flatMap f)[((l.take i).flatMap f).length + p]? = some x := by
  induction l generalizing i with
  | nil => simp at h
  | cons b rest ih =>
    cases i with
    | zero =>
      simp only [List.getElem?_cons_zero, Option.some.injEq] at h
      subst h
      have hp : p < (f b).length := by
        rcases Nat.lt_or_ge p (f b).length with hlt | hge
        · exact hlt
        · rw [List.getElem?_eq_none hge] at hx
          cases hx
      simp only [List.take_zero, List.flatMap_nil, List.length_nil, Nat.zero_add,
        List.flatMap_cons]
      rw [List.getElem?_append_left hp, hx]
    | succ i =>
      simp only [List.getElem?_cons_succ] at h
      simp only [List.take_succ_cons, List.flatMap_cons, List.length_append]
      rw [List.getElem?_append_right (by omega)]
      have he : (f b).length + ((rest.take i).flatMap f).length + p - (f b).length =
          ((rest.take i).flatMap f).length + p := by omega
      rw [he]
      exact ih i h

theorem pointsBefore_eq (metrics : List telegraf.Metric) (i : Nat) :
    pointsBefore metrics i = ((metrics.take i).flatMap pointsOfMetric).length := by
  rw [pointsBefore, Write.points_eq]

/-- C9: the points `Write` hands to the sink are in measurement order. The
list is the points of the first measurement, then those of the second, and so
on; so for `i < j`, the point of rank `p` of the measurement of index `i` and
the point of rank `q` of the measurement of index `j` are in the list at the
positions `pointsBefore metrics i + p` and `pointsBefore metrics j + q`, and
the first position is before the second. -/
theorem Write_measurement_order (A : sfxclient.Behaviour) (d : signalFx)
    (sink : sfxclient.Sink) (metrics : List telegraf.Metric) (log : List sfxclient.SinkCall)
    (i j p q : Nat) (mi mj : telegraf.Metric) (x y : datapoint.Datapoint)
    (hc : d.client = some sink) (hij : i < j)
    (hi : metrics[i]? = some mi) (hj : metrics[j]? = some mj)
    (hx : (pointsOfMetric mi)[p]? = some x) (hy : (pointsOfMetric mj)[q]? = some y) :
    ∃ points,
      (d.Write A metrics log).calls = log ++ [⟨sink, d.Timeout.Duration, points⟩] ∧
      points = (metrics.map pointsOfMetric).flatten ∧
      points[pointsBefore metrics i + p]? = some x ∧
      points[pointsBefore metrics j + q]? = some y ∧
      pointsBefore metrics i + p < pointsBefore metrics j + q := by
  have hne : metrics ≠ [] := by
    intro h
    rw [h] at hi
    simp at hi
  refine ⟨Write.points metrics, ?_, ?_, ?_, ?_, ?_⟩
  · rw [signalFx.Write_connected A d sink metrics log hc hne]
  · rw [Write.points_eq, List.flatMap_def]
  · rw [Write.points_eq, pointsBefore_eq]
    exact getElem?_flatMap_take pointsOfMetric metrics i p mi x hi hx
  · rw [Write.points_eq, pointsBefore_eq]
    exact getElem?_flatMap_take pointsOfMetric metrics j q mj y hj hy
  · rw [pointsBefore_eq, pointsBefore_eq]
    have hp : p < (pointsOfMetric mi).length := by
      rcases Nat.lt_or_ge p (pointsOfMetric mi).length with hlt | hge
      · exact hlt
      · rw [List.getElem?_eq_none hge] at hx
        cases hx
    have h1 := length_flatMap_take_succ pointsOfMetric metrics i mi hi
    have h2 := length_flatMap_take_mono pointsOfMetric metrics (i + 1) j hij
    omega

/-- Witness of C9 on the batch of `TestSignalFxClient`: the point of "test1" is
at position 0 and the point of "test2" at position 1. -/
theorem Write_measurement_order_witness :
    ∃ points,
      (testSession.Write acceptAll testBatch []).calls =
        [] ++ [⟨testSink, testSession.Timeout.Duration, points⟩] ∧
      points = (testBatch.map pointsOfMetric).flatten ∧
      points[pointsBefore testBatch 0 + 0]? =
        some (datapoint.New "test1" [("tag1", "value1")] (.int 1) .Gauge testTime) ∧
      points[pointsBefore testBatch 1 + 0]? =
        some (datapoint.New "test2.cpuusage" [] (.int 10) .Gauge testTime) ∧
      pointsBefore testBatch 0 + 0 < pointsBefore testBatch 1 + 0 :=
  Write_measurement_order acceptAll testSession testSink testBatch [] 0 1 0 0
    testMetric1 testMetric2 _ _ rfl (by decide) rfl rfl (by decide) (by decide)

/-- C10: the points `Write` hands to the sink are, in order, one per field that
coerces, each built from its own field: it carries the tag set and the
timestamp of the measurement of that field, unchanged, and its value is the
result of `valFromField` on the value of that very field. So every point
handed comes from a field `(k, v)` of a measurement `m` of the batch, has the
name the rule gives for `m` and `k`, the tags and the time of `m` and the value
`valFromField v`; and every field that coerces has exactly that point. -/
theorem Write_point_content (A : sfxclient.Behaviour) (d : signalFx) (sink : sfxclient.Sink)
    (metrics : List telegraf.Metric) (log : List sfxclient.SinkCall)
    (hc : d.client = some sink) :
    (pointsHanded ((d.Write A metrics log).calls.drop log.length) =
        metrics.flatMap fun m => m.Fields.filterMap fun kv =>
          match valFromField kv.2 with
          | .ok val =>
            some (datapoint.New (if kv.1 = "value" then m.Name else m.Name ++ "." ++ kv.1)
              m.Tags val .Gauge m.Time)
          | .error _ => none) ∧
      (∀ pt ∈ pointsHanded ((d.Write A metrics log).calls.drop log.length),
        ∃ m ∈ metrics, ∃ k v, (k, v) ∈ m.Fields ∧ pt ∈ pointsOfMetric m ∧
          valFromField v = .ok pt.Value ∧
          pt = datapoint.New (if k = "value" then m.Name else m.Name ++ "." ++ k)
            m.Tags pt.Value .Gauge m.Time ∧
          pt.Dimensions = m.Tags ∧ pt.Timestamp = m.Time) ∧
      (∀ m ∈ metrics, ∀ k v val, (k, v) ∈ m.Fields → valFromField v = .ok val →
        ∃ pt ∈ pointsHanded ((d.Write A metrics log).calls.drop log.length),
          pt = datapoint.New (if k = "value" then m.Name else m.Name ++ "." ++ k)
            m.Tags val .Gauge m.Time ∧
          pt.Dimensions = m.Tags ∧ pt.Timestamp = m.Time ∧ pt.Value = val) := by
  rw [signalFx.Write_handed A d sink metrics log hc]
  refine ⟨?_, ?_, ?_⟩
  · apply List.flatMap_congr
    intro m _
    rw [pointsOfMetric_eq]
    apply List.filterMap_congr
    intro kv _
    unfold pointOfField
    cases valFromField kv.2 <;> rfl
  · intro pt hpt
    rw [List.mem_flatMap] at hpt
    obtain ⟨m, hm, hpm⟩ := hpt
    have hpm2 := hpm
    rw [pointsOfMetric_eq, List.mem_filterMap] at hpm2
    obtain ⟨⟨k, v⟩, hkv, hpf⟩ := hpm2
    refine ⟨m, hm, k, v, hkv, hpm, ?_⟩
    unfold pointOfField at hpf
    cases hval : valFromField v with
    | error e => simp [hval] at hpf
    | ok val =>
      simp only [hval, Option.some.injEq] at hpf
      subst hpf
      exact ⟨rfl, rfl, rfl, rfl⟩
  · intro m hm k v val hkv hval
    refine ⟨datapoint.New (if k = "value" then m.Name else m.Name ++ "." ++ k) m.Tags val
      .Gauge m.Time, ?_, rfl, rfl, rfl, rfl⟩
    rw [List.mem_flatMap]
    refine ⟨m, hm, ?_⟩
    rw [pointsOfMetric_eq, List.mem_filterMap]
    refine ⟨(k, v), hkv, ?_⟩
    simp [pointOfField, hval, datapoint.New]

/-- Witness of C10: the measurement "test1" of `TestSignalFxClient` and a
measurement with four fields, both tagged. Each point has the tags and the
timestamp of its measurement and the value of its own field: 1 for "test1", 3
for "mixed.i", the float64 1.5 for "mixed.f", 1 for "mixed.b" and the
nanoseconds of the instant for "mixed.t". -/
theorem Write_point_content_witness :
    testSession.client = some testSink ∧
      pointsHanded ((testSession.Write acceptAll [testMetric1, mixedMetric] []).calls.drop 0) =
        [⟨"test1", [("tag1", "value1")], .int 1, .Gauge, testTime⟩,
          ⟨"mixed.i", [("host", "a")], .int 3, .Gauge, testTime⟩,
          ⟨"mixed.f", [("host", "a")], .float 4609434218613702656, .Gauge, testTime⟩,
          ⟨"mixed.b", [("host", "a")], .int 1, .Gauge, testTime⟩,
          ⟨"mixed.t", [("host", "a")], .int 1257894000000000000, .Gauge, testTime⟩] :=
  ⟨rfl,
    ((Write_point_content acceptAll testSession testSink [testMetric1, mixedMetric] []
      rfl).1).trans (by decide)⟩

/-! ### Connect -/

theorem signalFx.Connect_no_token (N : sfxclient.HTTPDatapointSink) (rv : String)
    (d : signalFx) (h : d.Token = "") :
    d.Connect N rv = { session := d, logged := [], err := some .errNoTokenSet } := by
  simp [signalFx.Connect, h]

/-- A successful `Connect`, in closed form: the session with its timeout
defaulted and the HTTP sink installed. -/
theorem signalFx.Connect_token (N : sfxclient.HTTPDatapointSink) (rv : String)
    (d : signalFx) (h : d.Token ≠ "") :
    (d.Connect N rv).err = none ∧
      (d.Connect N rv).session =
        { Token := d.Token
          Timeout := ⟨if d.Timeout.Duration = 0 then time.Second * 3 else d.Timeout.Duration⟩
          Endpoint := d.Endpoint
          Debug := d.Debug
          client := some (.http
            { AuthToken := d.Token
              UserAgent := "telegraf/" ++ "unknown(v1)" ++ " (gover " ++ rv ++ ")"
              Endpoint := if d.Endpoint ≠ "" then d.Endpoint else N.Endpoint
              ClientTimeout :=
                if d.Timeout.Duration = 0 then time.Second * 3 else d.Timeout.Duration }) } := by
  unfold signalFx.Connect
  rw [if_neg h]
  by_cases ht : d.Timeout.Duration = 0 <;> by_cases he : d.Endpoint = "" <;>
    simp [ht, he]

/-- C11: `Connect` on a session whose Token is empty fails with
`errNoTokenSet` and leaves the session, every field of it, unchanged;
`Connect` on a session whose Token is not empty succeeds. -/
theorem Connect_token_required (N : sfxclient.HTTPDatapointSink) (rv : String)
    (d : signalFx) :
    (d.Token = "" →
      (d.Connect N rv).err = some .errNoTokenSet ∧ (d.Connect N rv).session = d ∧
        (d.Connect N rv).session.Timeout = d.Timeout ∧
        (d.Connect N rv).session.Endpoint = d.Endpoint ∧
        (d.Connect N rv).session.Debug = d.Debug ∧
        (d.Connect N rv).session.client = d.client) ∧
      (d.Token ≠ "" → (d.Connect N rv).err = none) := by
  constructor
  · intro h
    rw [signalFx.Connect_no_token N rv d h]
    exact ⟨rfl, rfl, rfl, rfl, rfl, rfl⟩
  · intro h
    exact (signalFx.Connect_token N rv d h).1

/-- Witness of C11: the first `Connect` of `TestSignalFxClient`, on the session
of the factory, fails; the second, with the token "abc", succeeds. -/
theorem Connect_token_required_witness :
    newSignalFx.Token = "" ∧
      (newSignalFx.Connect defaultHTTPSink "go").err = some .errNoTokenSet ∧
      (newSignalFx.Connect defaultHTTPSink "go").session = newSignalFx ∧
      testConfigured.Token ≠ "" ∧
      (testConfigured.Connect defaultHTTPSink "go").err = none :=
  ⟨rfl,
    ((Connect_token_required defaultHTTPSink "go" newSignalFx).1 rfl).1,
    ((Connect_token_required defaultHTTPSink "go" newSignalFx).1 rfl).2.1,
    by decide,
    (Connect_token_required defaultHTTPSink "go" testConfigured).2 (by decide)⟩

/-- C12: a successful `Connect` sets the Timeout of the session to 3 seconds
when it was zero and keeps a Timeout that was not zero; in both cases the
client it installs is an HTTP sink whose timeout is the resulting Timeout of
the session and whose token is the Token of the session. -/
theorem Connect_timeout (N : sfxclient.HTTPDatapointSink) (rv : String) (d : signalFx)
    (h : d.Token ≠ "") :
    (d.Connect N rv).err = none ∧
      (d.Timeout.Duration = 0 →
        (d.Connect N rv).session.Timeout.Duration = 3000000000) ∧
      (d.Timeout.Duration ≠ 0 → (d.Connect N rv).session.Timeout = d.Timeout) ∧
      (d.Connect N rv).session.Token = d.Token ∧
      ∃ httpClient, (d.Connect N rv).session.client = some (.http httpClient) ∧
        httpClient.ClientTimeout = (d.Connect N rv).session.Timeout.Duration ∧
        httpClient.AuthToken = (d.Connect N rv).session.Token := by
  obtain ⟨herr, hs⟩ := signalFx.Connect_token N rv d h
  rw [hs]
  refine ⟨herr, ?_, ?_, rfl, _, rfl, rfl, rfl⟩
  · intro ht
    simp [ht, time.Second]
  · intro ht
    simp [ht]

/-- Witness of C12: the `Connect` of `TestSignalFxClient`, with no timeout
configured, leaves a timeout of 3 seconds in the session and in the client. -/
theorem Connect_timeout_witness :
    testConfigured.Token ≠ "" ∧
      (testConfigured.Connect defaultHTTPSink "go").session.Timeout.Duration = 3000000000 ∧
      (testConfigured.Connect defaultHTTPSink "go").session.client =
        some (.http ⟨"abc", "telegraf/unknown(v1) (gover go)", "testing", 3000000000⟩) := by
  refine ⟨by decide, ?_, by decide⟩
  exact (Connect_timeout defaultHTTPSink "go" testConfigured (by decide)).2.1 rfl

/-! ### Widening a float32 -/

theorem float64Denote_compose (s e f : Nat) (hs : s < 2) (he : e < 2 ^ 11) (hf : f < 2 ^ 52) :
    float64Denote (s * 2 ^ 63 + e * 2 ^ 52 + f) =
      if e = 2047 then
        if f = 0 then .infinite (decide (s = 1)) else .nan
      else if e = 0 then .finite (decide (s = 1)) f
      else .finite (decide (s = 1)) ((2 ^ 52 + f) * 2 ^ (e - 1)) := by
  have h1 : (s * 2 ^ 63 + e * 2 ^ 52 + f) / 2 ^ 63 % 2 = s := by omega
  have h2 : (s * 2 ^ 63 + e * 2 ^ 52 + f) / 2 ^ 52 % 2 ^ 11 = e := by omega
  have h3 : (s * 2 ^ 63 + e * 2 ^ 52 + f) % 2 ^ 52 = f := by omega
  unfold float64Denote
  simp only [h1, h2, h3]


theorem float64Denote_zero (s : Nat) (hs : s < 2) :
    float64Denote (s * 2 ^ 63) = .finite (decide (s = 1)) 0 := by
  have h := float64Denote_compose s 0 0 hs (by norm_num) (by norm_num)
  have e1 : s * 2 ^ 63 + 0 * 2 ^ 52 + 0 = s * 2 ^ 63 := by omega
  rw [e1] at h
  rw [h, if_neg (by norm_num), if_pos rfl]

theorem float64Denote_infinite (s : Nat) (hs : s < 2) :
    float64Denote (s * 2 ^ 63 + 2047 * 2 ^ 52) = .infinite (decide (s = 1)) := by
  have h := float64Denote_compose s 2047 0 hs (by norm_num) (by norm_num)
  rw [Nat.add_zero] at h
  rw [h, if_pos rfl, if_pos rfl]

theorem float64Denote_nan (s f : Nat) (hs : s < 2) (hf0 : f ≠ 0) (hf : f < 2 ^ 52) :
    float64Denote (s * 2 ^ 63 + 2047 * 2 ^ 52 + f) = .nan := by
  rw [float64Denote_compose s 2047 f hs (by norm_num) hf, if_pos rfl, if_neg hf0]

theorem float64Denote_normal (s e f : Nat) (hs : s < 2) (he0 : e ≠ 0) (he : e < 2047)
    (hf : f < 2 ^ 52) :
    float64Denote (s * 2 ^ 63 + e * 2 ^ 52 + f) =
      .finite (decide (s = 1)) ((2 ^ 52 + f) * 2 ^ (e - 1)) := by
  rw [float64Denote_compose s e f hs (by omega) hf, if_neg (by omega), if_neg he0]

theorem float32_subnormal_fraction (f : Nat) (hf0 : f ≠ 0) (hf : f < 2 ^ 23) :
    f.log2 ≤ 22 ∧ (f - 2 ^ f.log2) * 2 ^ (52 - f.log2) < 2 ^ 52 ∧
      (2 ^ 52 + (f - 2 ^ f.log2) * 2 ^ (52 - f.log2)) * 2 ^ (f.log2 + 874 - 1) =
        f * 2 ^ 925 := by
  have hk : f.log2 < 23 := (Nat.log2_lt hf0).2 hf
  have hlo : 2 ^ f.log2 ≤ f := Nat.log2_self_le hf0
  have hhi : f < 2 ^ (f.log2 + 1) := Nat.lt_log2_self
  have hexp : f.log2 + (52 - f.log2) = 52 := by omega
  have h52 : 2 ^ 52 = 2 ^ f.log2 * 2 ^ (52 - f.log2) := by
    rw [← Nat.pow_add, hexp]
  have hsub : 2 ^ f.log2 + (f - 2 ^ f.log2) = f := by omega
  have hsum : 2 ^ 52 + (f - 2 ^ f.log2) * 2 ^ (52 - f.log2) = f * 2 ^ (52 - f.log2) := by
    rw [h52, ← Nat.add_mul, hsub]
  have hexp2 : 52 - f.log2 + (f.log2 + 874 - 1) = 925 := by omega
  have hk22 : f.log2 ≤ 22 := by omega
  refine ⟨hk22, ?_, ?_⟩
  · rw [h52]
    apply Nat.mul_lt_mul_of_pos_right
    · rw [Nat.pow_succ] at hhi
      omega
    · exact Nat.pow_pos (by norm_num)
  · calc (2 ^ 52 + (f - 2 ^ f.log2) * 2 ^ (52 - f.log2)) * 2 ^ (f.log2 + 874 - 1)
        = f * (2 ^ (52 - f.log2) * 2 ^ (f.log2 + 874 - 1)) := by
          rw [hsum, Nat.mul_assoc]
      _ = f * 2 ^ (52 - f.log2 + (f.log2 + 874 - 1)) := by
          rw [← Nat.pow_add]
      _ = f * 2 ^ 925 := congrArg (fun n => f * 2 ^ n) hexp2

theorem float32_normal_units (e f : Nat) (he0 : e ≠ 0) :
    (2 ^ 52 + f * 2 ^ 29) * 2 ^ (e + 896 - 1) = (2 ^ 23 + f) * 2 ^ (e - 1) * 2 ^ 925 := by
  have h4 : (2 : Nat) ^ 52 + f * 2 ^ 29 = (2 ^ 23 + f) * 2 ^ 29 := by omega
  have hexp : 29 + (e + 896 - 1) = e - 1 + 925 := by omega
  rw [h4, Nat.mul_assoc, Nat.mul_assoc, ← Nat.pow_add, ← Nat.pow_add, hexp]

theorem float32ToFloat64_exact (b : Nat) :
    float32ToFloat64 b < 2 ^ 64 ∧ float64Denote (float32ToFloat64 b) = float32Denote b := by
  have hs : b / 2 ^ 31 % 2 < 2 := Nat.mod_lt _ (by norm_num)
  have he : b / 2 ^ 23 % 2 ^ 8 < 2 ^ 8 := Nat.mod_lt _ (by norm_num)
  have hf : b % 2 ^ 23 < 2 ^ 23 := Nat.mod_lt _ (by norm_num)
  unfold float32ToFloat64 float32Denote
  generalize b / 2 ^ 31 % 2 = s at hs
  generalize b / 2 ^ 23 % 2 ^ 8 = e at he
  generalize b % 2 ^ 23 = f at hf
  simp only []
  by_cases he0 : e = 0
  · have he255 : e ≠ 255 := by omega
    by_cases hf0 : f = 0
    · rw [if_pos he0, if_pos hf0, if_neg he255, if_pos he0, float64Denote_zero s hs, hf0,
        Nat.zero_mul]
      exact ⟨by omega, rfl⟩
    · obtain ⟨hk, hlt, heq⟩ := float32_subnormal_fraction f hf0 hf
      rw [if_pos he0, if_neg hf0, if_neg he255, if_pos he0,
        float64Denote_normal s _ _ hs (by omega) (by omega) hlt, heq]
      exact ⟨by omega, rfl⟩
  · by_cases he255 : e = 255
    · by_cases hf0 : f = 0
      · rw [if_neg he0, if_pos he255, if_pos hf0, if_pos he255, if_pos hf0,
          float64Denote_infinite s hs]
        exact ⟨by omega, rfl⟩
      · have hq : (if f < 2 ^ 22 then f * 2 ^ 29 + 2 ^ 51 else f * 2 ^ 29) < 2 ^ 52 := by
          split <;> omega
        have hq0 : (if f < 2 ^ 22 then f * 2 ^ 29 + 2 ^ 51 else f * 2 ^ 29) ≠ 0 := by
          split <;> omega
        rw [if_neg he0, if_pos he255, if_neg hf0, if_pos he255, if_neg hf0,
          float64Denote_nan s _ hs hq0 hq]
        exact ⟨by omega, rfl⟩
    · rw [if_neg he0, if_neg he255, if_neg he255, if_neg he0,
        float64Denote_normal s _ _ hs (by omega) (by omega) (by omega),
        float32_normal_units e f he0]
      exact ⟨by omega, rfl⟩

/-- C13: for every floating-point input, float32 or float64, `valFromField`
succeeds and returns a floating-point value, never an integer value: a float64
as it is, and a float32 converted to float64, a conversion that is exact (the
float64 denotes the same number, infinity or NaN as the float32). So
`float32(4)` gives the float64 4. -/
theorem valFromField_float (b : Nat) :
    valFromField (.float64 b) = .ok (.float b) ∧
      valFromField (.float32 b) = .ok (.float (float32ToFloat64 b)) ∧
      float64Denote (float32ToFloat64 b) = float32Denote b ∧
      float32ToFloat64 b < 2 ^ 64 ∧
      (∀ v, valFromField (.float32 b) ≠ .ok (.int v)) ∧
      (∀ v, valFromField (.float64 b) ≠ .ok (.int v)) ∧
      valFromField (.float32 1082130432) = .ok (.float 4616189618054758400) := by
  refine ⟨rfl, rfl, (float32ToFloat64_exact b).2, (float32ToFloat64_exact b).1, ?_, ?_, ?_⟩
  · intro v h
    simp [valFromField, datapoint.NewFloatValue] at h
  · intro v h
    simp [valFromField, datapoint.NewFloatValue] at h
  · have h : float32ToFloat64 1082130432 = 4616189618054758400 := by decide
    simp only [valFromField, datapoint.NewFloatValue, h]

/-! ### The call to the sink -/

/-- C14: for every batch that is not empty, `Write` on a session with a client
makes exactly one call to the sink; that call carries all the points of the
whole batch, and its timeout is the Timeout of the session. -/
theorem Write_single_call (A : sfxclient.Behaviour) (d : signalFx) (sink : sfxclient.Sink)
    (metrics : List telegraf.Metric) (log : List sfxclient.SinkCall)
    (hne : metrics ≠ []) (hc : d.client = some sink) :
    (d.Write A metrics log).calls =
        log ++ [⟨sink, d.Timeout.Duration, metrics.flatMap pointsOfMetric⟩] ∧
      ((d.Write A metrics log).calls.drop log.length).length = 1 ∧
      ∀ c ∈ (d.Write A metrics log).calls.drop log.length,
        c.sink = sink ∧ c.timeout = d.Timeout.Duration ∧
          c.points = Write.points metrics ∧ c.points.length = coercibleFields metrics := by
  rw [signalFx.Write_connected A d sink metrics log hc hne]
  refine ⟨by rw [Write.points_eq], by simp, ?_⟩
  intro c hcm
  simp only [List.drop_left, List.mem_singleton] at hcm
  subst hcm
  refine ⟨rfl, rfl, rfl, ?_⟩
  show (Write.points metrics).length = coercibleFields metrics
  rw [Write.points_eq, length_flatMap_pointsOfMetric]

/-- Witness of C14 on the batch of `TestSignalFxClient`: one call, of two
points, with the timeout of 3 seconds of the session. -/
theorem Write_single_call_witness :
    testBatch ≠ [] ∧ testSession.client = some testSink ∧
      (testSession.Write acceptAll testBatch []).calls =
        [] ++ [⟨testSink, 3000000000, testBatch.flatMap pointsOfMetric⟩] ∧
      (testBatch.flatMap pointsOfMetric).length = 2 :=
  ⟨by decide, rfl,
    (Write_single_call acceptAll testSession testSink testBatch [] (by decide) rfl).1,
    by decide⟩

/-- C15: every point `Write` hands to the sink has the kind gauge; a field
that coerces, whatever its kind, has a point of kind gauge with the coerced
value. -/
theorem Write_point_gauge (A : sfxclient.Behaviour) (d : signalFx) (sink : sfxclient.Sink)
    (metrics : List telegraf.Metric) (log : List sfxclient.SinkCall)
    (hc : d.client = some sink) :
    (∀ pt ∈ pointsHanded ((d.Write A metrics log).calls.drop log.length),
        pt.MetricType = .Gauge) ∧
      (∀ m ∈ metrics, ∀ k v val, (k, v) ∈ m.Fields → valFromField v = .ok val →
        ∃ pt ∈ pointsHanded ((d.Write A metrics log).calls.drop log.length),
          pt.Value = val ∧ pt.MetricType = .Gauge) := by
  rw [signalFx.Write_handed A d sink metrics log hc]
  constructor
  · intro pt hpt
    rw [List.mem_flatMap] at hpt
    obtain ⟨m, _, hpm⟩ := hpt
    rw [pointsOfMetric_eq, List.mem_filterMap] at hpm
    obtain ⟨kv, _, hpf⟩ := hpm
    unfold pointOfField at hpf
    cases hval : valFromField kv.2 with
    | error e => simp [hval] at hpf
    | ok val =>
      simp only [hval, Option.some.injEq] at hpf
      subst hpf
      rfl
  · intro m hm k v val hkv hval
    refine ⟨⟨if k = "value" then m.Name else m.Name ++ "." ++ k, m.Tags, val, .Gauge,
      m.Time⟩, ?_, rfl, rfl⟩
    rw [List.mem_flatMap]
    refine ⟨m, hm, ?_⟩
    rw [pointsOfMetric_eq, List.mem_filterMap]
    refine ⟨(k, v), hkv, ?_⟩
    simp [pointOfField, hval]

/-- Witness of C15: a measurement with an integer, a floating-point, a boolean
and a timestamp field gives four points, all of kind gauge. -/
theorem Write_point_gauge_witness :
    testSession.client = some testSink ∧
      (pointsHanded ((testSession.Write acceptAll [mixedMetric] []).calls.drop 0)).length = 4 ∧
      ∀ pt ∈ pointsHanded ((testSession.Write acceptAll [mixedMetric] []).calls.drop 0),
        pt.MetricType = .Gauge :=
  ⟨rfl, by decide, (Write_point_gauge acceptAll testSession testSink [mixedMetric] [] rfl).1⟩

theorem signalFx.Write_session (A : sfxclient.Behaviour) (d : signalFx)
    (metrics : List telegraf.Metric) (log : List sfxclient.SinkCall) :
    (d.Write A metrics log).session = d := by
  unfold signalFx.Write
  split
  · rfl
  · split <;> rfl

/-- C16: `Write` never modifies the session: for every session and every
batch, the session after `Write`, and so its Token, Timeout, Endpoint, Debug
and client, is the session before it, whether `Write` returns success, returns
an error or finds no client. -/
theorem Write_session_unchanged (A : sfxclient.Behaviour) (d : signalFx)
    (metrics : List telegraf.Metric) (log : List sfxclient.SinkCall) :
    (d.Write A metrics log).session = d ∧
      (d.Write A metrics log).session.Token = d.Token ∧
      (d.Write A metrics log).session.Timeout = d.Timeout ∧
      (d.Write A metrics log).session.Endpoint = d.Endpoint ∧
      (d.Write A metrics log).session.Debug = d.Debug ∧
      (d.Write A metrics log).session.client = d.client := by
  rw [signalFx.Write_session A d metrics log]
  exact ⟨rfl, rfl, rfl, rfl, rfl, rfl⟩

/-- C17: `Close` returns success in every session state, connected or not, and
leaves the session unchanged, so a `Write` after `Close` does what it would
have done before it. -/
theorem Close_ok (d : signalFx) :
    d.Close.2 = none ∧ d.Close.1 = d ∧
      ∀ (A : sfxclient.Behaviour) (metrics : List telegraf.Metric)
        (log : List sfxclient.SinkCall),
        d.Close.1.Write A metrics log = d.Write A metrics log :=
  ⟨rfl, rfl, fun _ _ _ => rfl⟩

theorem flatMap_pointsOfMetric_eq_nil (metrics : List telegraf.Metric)
    (h : ∀ m ∈ metrics, ∀ kv ∈ m.Fields, (valFromField kv.2).toBool = false) :
    metrics.flatMap pointsOfMetric = [] := by
  rw [List.flatMap_eq_nil_iff]
  intro m hm
  rw [pointsOfMetric_eq, List.filterMap_eq_nil_iff]
  intro kv hkv
  have hs := pointOfField_isSome m kv
  rw [h m hm kv hkv] at hs
  cases hp : pointOfField m kv with
  | none => rfl
  | some pt => simp [hp] at hs

/-- C18: `Write` returns early on an empty batch only, not on an empty list of
points: for every batch that is not empty and in which no field coerces,
`Write` on a session with a client still makes one call to the sink, with an
empty list of points, and returns the result of that call. -/
theorem Write_no_point (A : sfxclient.Behaviour) (d : signalFx) (sink : sfxclient.Sink)
    (metrics : List telegraf.Metric) (log : List sfxclient.SinkCall)
    (hne : metrics ≠ []) (hc : d.client = some sink)
    (hno : ∀ m ∈ metrics, ∀ kv ∈ m.Fields, (valFromField kv.2).toBool = false) :
    (d.Write A metrics log).calls = log ++ [⟨sink, d.Timeout.Duration, []⟩] ∧
      (d.Write A metrics log).outcome = .returned (A sink log d.Timeout.Duration []) := by
  rw [signalFx.Write_connected A d sink metrics log hc hne, Write.points_eq,
    flatMap_pointsOfMetric_eq_nil metrics hno]
  exact ⟨rfl, rfl⟩

/-- Witness of C18: the measurement "test3" of `TestSignalFxClient`, whose only
field is a function, written alone to a sink that refuses: one call with no
point, and the error of the sink. -/
theorem Write_no_point_witness :
    [testMetric3] ≠ [] ∧ testSession.client = some testSink ∧
      (testSession.Write refuseAll [testMetric3] []).calls =
        [] ++ [⟨testSink, testSession.Timeout.Duration, []⟩] ∧
      (testSession.Write refuseAll [testMetric3] []).outcome =
        .returned (refuseAll testSink [] testSession.Timeout.Duration []) :=
  ⟨by decide, rfl,
    Write_no_point refuseAll testSession testSink [testMetric3] [] (by decide) rfl
      (by decide)⟩

/-! ### The life of a session -/

theorem step_session (A : sfxclient.Behaviour) (w : World) (c : Call) :
    (step A w c).session = w.session := by
  cases c with
  | Write metrics => exact signalFx.Write_session A w.session metrics w.calls
  | Close => rfl

theorem run_session (A : sfxclient.Behaviour) (w : World) (cs : List Call) :
    (run A w cs).session = w.session := by
  induction cs generalizing w with
  | nil => rfl
  | cons c rest ih =>
    show (run A (step A w c) rest).session = w.session
    rw [ih, step_session]

theorem signalFx.Connect_connected (N : sfxclient.HTTPDatapointSink) (rv : String)
    (d : signalFx) (h : (d.Connect N rv).err = none) :
    (d.Connect N rv).session.Connected := by
  have ht : d.Token ≠ "" := by
    intro h0
    rw [signalFx.Connect_no_token N rv d h0] at h
    cases h
  rw [(signalFx.Connect_token N rv d ht).2]
  refine ⟨ht, ?_, _, rfl⟩
  show (if d.Timeout.Duration = 0 then time.Second * 3 else d.Timeout.Duration) ≠ 0
  split
  · simp [time.Second]
  · assumption

theorem signalFx.Write_no_client (A : sfxclient.Behaviour) (d : signalFx)
    (metrics : List telegraf.Metric) (log : List sfxclient.SinkCall)
    (hc : d.client = none) (hne : metrics ≠ []) :
    d.Write A metrics log = { session := d, calls := log, outcome := .panicked } := by
  have hlen : metrics.length ≠ 0 := by
    intro h
    exact hne (List.length_eq_zero.mp h)
  simp [signalFx.Write, hlen, hc]

/-- C19: in every session state reached by a successful `Connect` followed by
any sequence of `Write` and `Close` calls, Token is not empty, Timeout is not
zero and the client is set, so `Write` on a batch that is not empty calls the
sink and does not meet a nil client; in a session whose client is unset, as it
is without a successful `Connect`, the client stays unset through any such
sequence, and `Write` on a batch that is not empty has no sink to call: it
makes no call and panics. -/
theorem session_client_invariant (A : sfxclient.Behaviour)
    (N : sfxclient.HTTPDatapointSink) (rv : String) (d : signalFx)
    (log : List sfxclient.SinkCall) (cs : List Call) (metrics : List telegraf.Metric)
    (hne : metrics ≠ []) :
    ((d.Connect N rv).err = none →
        (run A ⟨(d.Connect N rv).session, log⟩ cs).session.Connected ∧
        ∃ sink, (run A ⟨(d.Connect N rv).session, log⟩ cs).session.client = some sink ∧
          ((run A ⟨(d.Connect N rv).session, log⟩ cs).session.Write A metrics
              (run A ⟨(d.Connect N rv).session, log⟩ cs).calls).outcome ≠ .panicked ∧
          ((run A ⟨(d.Connect N rv).session, log⟩ cs).session.Write A metrics
              (run A ⟨(d.Connect N rv).session, log⟩ cs).calls).calls =
            (run A ⟨(d.Connect N rv).session, log⟩ cs).calls ++
              [⟨sink, (d.Connect N rv).session.Timeout.Duration, Write.points metrics⟩]) ∧
      (d.client = none →
        (run A ⟨d, log⟩ cs).session.client = none ∧
        ((run A ⟨d, log⟩ cs).session.Write A metrics (run A ⟨d, log⟩ cs).calls).outcome =
          .panicked ∧
        ((run A ⟨d, log⟩ cs).session.Write A metrics (run A ⟨d, log⟩ cs).calls).calls =
          (run A ⟨d, log⟩ cs).calls) ∧
      newSignalFx.client = none := by
  refine ⟨?_, ?_, rfl⟩
  · intro hconn
    have hcon := signalFx.Connect_connected N rv d hconn
    rw [run_session]
    refine ⟨hcon, ?_⟩
    obtain ⟨_, _, sink, hs⟩ := hcon
    refine ⟨sink, hs, ?_, ?_⟩
    · rw [signalFx.Write_connected A _ sink metrics _ hs hne]
      intro h
      cases h
    · rw [signalFx.Write_connected A _ sink metrics _ hs hne]
  · intro hc
    rw [run_session]
    refine ⟨hc, ?_, ?_⟩
    · rw [signalFx.Write_no_client A d metrics _ hc hne]
    · rw [signalFx.Write_no_client A d metrics _ hc hne]

/-- Witness of C19 on `TestSignalFxClient`: after its `Connect`, a `Close`, a
`Write` of nothing and a `Write` of its batch, the session is still connected;
on the session of the factory, never connected, a `Write` of the batch
panics. -/
theorem session_client_invariant_witness :
    testBatch ≠ [] ∧ (testConfigured.Connect defaultHTTPSink "go").err = none ∧
      (run acceptAll ⟨(testConfigured.Connect defaultHTTPSink "go").session, []⟩
        [.Close, .Write [], .Write testBatch]).session.Connected ∧
      newSignalFx.client = none ∧
      ((run acceptAll ⟨newSignalFx, []⟩ [.Close, .Write []]).session.Write acceptAll
          testBatch (run acceptAll ⟨newSignalFx, []⟩ [.Close, .Write []]).calls).outcome =
        .panicked :=
  ⟨by decide, by decide,
    ((session_client_invariant acceptAll defaultHTTPSink "go" testConfigured []
      [.Close, .Write [], .Write testBatch] testBatch (by decide)).1 (by decide)).1,
    rfl,
    ((session_client_invariant acceptAll defaultHTTPSink "go" newSignalFx []
      [.Close, .Write []] testBatch (by decide)).2.1 rfl).2.1⟩

/-- C20: the naming rule of `Write` is not injective: the measurement "a.b"
with the field "value" and the measurement "a" with the field "b" are two
distinct pairs that give the same point name, "a.b", and `Write` hands both
points to the sink, neither merged nor renamed. -/
theorem Write_name_collision :
    (("a.b", "value") : String × String) ≠ ("a", "b") ∧
      collidingBatch.map (fun m => (m.Name, m.Fields.map Prod.fst)) =
        [("a.b", ["value"]), ("a", ["b"])] ∧
      (testSession.Write acceptAll collidingBatch []).calls =
        [⟨testSink, 3000000000,
          [datapoint.New "a.b" [] (.int 1) .Gauge testTime,
            datapoint.New "a.b" [] (.int 2) .Gauge testTime]⟩] ∧
      (testSession.Write acceptAll collidingBatch []).outcome = .returned none := by
  decide

end signalfx
